import Mathlib

/-!
# Verification of the MRP inventory core (src/src/App.js)

Shallow embedding of the unit-aware inventory reservation and deduction
engine: the unit converter `convertUnits`, the production planner/committer
`handleConfirmProduction`, and the sales-order fulfillment handler
`handleChangeOrderStatus`.  Scalars are modelled as rationals, JavaScript
`null` returns as `Option.none`, and Firestore document updates as pure
list transformations keyed by document id.
-/

set_option allowUnsafeReducibility true in
attribute [semireducible] Rat.mul Rat.sub Rat.add Rat.inv

namespace MRP

/-- An inventory document: `id` (document key), `name`, `type`
(`"raw_material"` or `"finished_good"`), `unit_value`, `unit_type`,
`stock`.  Mirrors the fields touched by the core handlers. -/
structure InventoryItem where
  id : Nat
  name : String
  type : String
  unit_value : ℚ
  unit_type : String
  stock : ℚ
deriving DecidableEq, Repr

/-- One recipe ingredient line `{name, quantity, unit}`; `quantity` is the
parsed numeric value of the form field. -/
structure Ingredient where
  name : String
  quantity : ℚ
  unit : String
deriving DecidableEq, Repr

/-- A recipe document: `id`, `name`, ordered `ingredients`. -/
structure Recipe where
  id : Nat
  name : String
  ingredients : List Ingredient
deriving DecidableEq, Repr

/-- A sales-order document, with the fields `handleChangeOrderStatus`
reads: optional recipe link, free-text product description, quantity and
status (`"Pendiente"` or `"Completado"`). -/
structure SalesOrder where
  id : Nat
  customerName : String
  selectedRecipeId : Option Nat
  productDescription : String
  quantity : ℚ
  orderDate : String
  status : String
deriving DecidableEq, Repr

/-! ## Unit conversion (`convertUnits`, App.js lines 24-68) -/

/-- JavaScript `toLowerCase()` on the ASCII strings the app uses:
lowercase every character. -/
def jsToLower (s : String) : String :=
  String.mk (s.data.map Char.toLower)

/-- The `mass` factor table of `conversionFactors`: `{g: 1, kg: 1000}`. -/
def massFactors (u : String) : Option ℚ :=
  if u = "g" then some 1 else if u = "kg" then some 1000 else none

/-- The `volume` factor table of `conversionFactors`:
`{ml: 1, lt: 1000, cc: 1}`. -/
def volumeFactors (u : String) : Option ℚ :=
  if u = "ml" then some 1
  else if u = "lt" then some 1000
  else if u = "cc" then some 1 else none

/-- The `count` factor table of `conversionFactors`: `{unidad: 1}`. -/
def countFactors (u : String) : Option ℚ :=
  if u = "unidad" then some 1 else none

/-- The count factor table as the specification words it:
`Count{unit: 1}`.  Kept separate from `countFactors` (the source's table)
to compare the two. -/
def specCountFactors (u : String) : Option ℚ :=
  if u = "unit" then some 1 else none

/-- The three unit categories of the `conversionFactors` object. -/
inductive UnitCategory
  | mass
  | volume
  | count
deriving DecidableEq, Repr

/-- Category lookup, probing `mass`, then `volume`, then `count`, exactly
as the `fromCategory`/`toCategory` if-chains do (an empty result models
the JS empty-string category). -/
def categoryOf (u : String) : Option UnitCategory :=
  if (massFactors u).isSome then some .mass
  else if (volumeFactors u).isSome then some .volume
  else if (countFactors u).isSome then some .count
  else none

/-- `conversionFactors[category][unit]`. -/
def factorIn (c : UnitCategory) (u : String) : Option ℚ :=
  match c with
  | .mass => massFactors u
  | .volume => volumeFactors u
  | .count => countFactors u

/-- `convertUnits(value, fromUnit, toUnit)`: lowercases both symbols,
returns `value` on symbol equality, fails (`none`, the JS `null`) when a
category is missing or the categories differ, and otherwise returns
`value * factor(from) / factor(to)`. -/
def convertUnits (value : ℚ) (fromUnit toUnit : String) : Option ℚ :=
  let f := jsToLower fromUnit
  let t := jsToLower toUnit
  if f = t then some value
  else
    match categoryOf f, categoryOf t with
    | some cf, some ct =>
        if cf = ct then
          match factorIn cf f, factorIn ct t with
          | some a, some b => some (value * a / b)
          | _, _ => none
        else none
    | _, _ => none

/-! ## Case-insensitive item lookup (App.js lines 854-856, 894-896, 1277-1279) -/

/-- `inventoryItems.find(item => item.name.toLowerCase() ===
ing.name.toLowerCase() && item.type === 'raw_material')`. -/
def findRawMaterial (inv : List InventoryItem) (nm : String) : Option InventoryItem :=
  inv.find? fun item =>
    (jsToLower item.name == jsToLower nm) && (item.type == "raw_material")

/-- `inventoryItems.find(item => item.name.toLowerCase() ===
name.toLowerCase() && item.type === 'finished_good')`. -/
def findFinishedGood (inv : List InventoryItem) (nm : String) : Option InventoryItem :=
  inv.find? fun item =>
    (jsToLower item.name == jsToLower nm) && (item.type == "finished_good")

/-! ## Production planning (`handleConfirmProduction`, App.js lines 834-938) -/

/-- One entry of `shortageMessages`, by the three push sites: the
ingredient was not found as a raw material, `convertUnits` returned
`null`, or the available base stock is below the converted requirement. -/
inductive Shortage
  | missingIngredient (name : String)
  | unitMismatch (name : String)
  | deficit (name : String) (required available : ℚ) (unit : String)
deriving DecidableEq, Repr

/-- One entry of `deductions`: `{itemId, newStock}`. -/
structure Deduction where
  itemId : Nat
  newStock : ℚ
deriving DecidableEq, Repr

/-- One iteration of the ingredient loop (lines 850-892): the shortage
message pushed for this ingredient (if any) and the deduction entry pushed
for it (if any).  Note the source pushes a deduction even when a deficit
shortage was just recorded; only the missing-item and conversion-failure
branches `continue` past it. -/
def evalIngredient (inv : List InventoryItem) (qtyToProduce : ℚ) (ing : Ingredient) :
    Option Shortage × Option Deduction :=
  match findRawMaterial inv ing.name with
  | none => (some (.missingIngredient ing.name), none)
  | some item =>
    match convertUnits (ing.quantity * qtyToProduce) ing.unit item.unit_type with
    | none => (some (.unitMismatch ing.name), none)
    | some required =>
      let available := item.stock * item.unit_value
      ((if available < required then
          some (.deficit ing.name required available item.unit_type) else none),
       some ⟨item.id, (available - required) / item.unit_value⟩)

/-- The `shortageMessages` list accumulated over the whole ingredient
loop (one pass, no early exit). -/
def planShortages (inv : List InventoryItem) (r : Recipe) (qty : ℚ) : List Shortage :=
  r.ingredients.filterMap fun ing => (evalIngredient inv qty ing).1

/-- The `deductions` list accumulated over the whole ingredient loop. -/
def planDeductions (inv : List InventoryItem) (r : Recipe) (qty : ℚ) : List Deduction :=
  r.ingredients.filterMap fun ing => (evalIngredient inv qty ing).2

/-- Everything `handleConfirmProduction` captures from the snapshot
before writing: the deduction entries, the matched finished good (its id
and snapshot stock, line 894), the recipe name and the quantity. -/
structure Plan where
  deductions : List Deduction
  fp : Option (Nat × ℚ)
  recipeName : String
  qty : ℚ
deriving DecidableEq, Repr

/-- The plan captured at lines 847-896. -/
def mkPlan (inv : List InventoryItem) (r : Recipe) (qty : ℚ) : Plan :=
  { deductions := planDeductions inv r qty
    fp := (findFinishedGood inv r.name).map fun i => (i.id, i.stock)
    recipeName := r.name
    qty := qty }

/-- `updateDoc(itemRef, {stock: deduction.newStock})`: set the stock of
the document with the deduction's id. -/
def applyDeduction (inv : List InventoryItem) (d : Deduction) : List InventoryItem :=
  inv.map fun item =>
    if item.id = d.itemId then { item with stock := d.newStock } else item

/-- The document `addDoc` creates when no finished good matches (lines
921-928): `{name, unit_value: 1, unit_type: 'unidad', stock:
quantityToProduce, type: 'finished_good'}`. -/
def newFinishedGood (fid : Nat) (nm : String) (qty : ℚ) : InventoryItem :=
  { id := fid, name := nm, type := "finished_good"
    unit_value := 1, unit_type := "unidad", stock := qty }

/-- The write phase (lines 907-931): apply every deduction in order, then
upsert the finished good using the id and stock captured at plan time.
The writes are plain unconditional document updates. -/
def commitPlan (p : Plan) (inv : List InventoryItem) (fid : Nat) : List InventoryItem :=
  match p.fp with
  | some (i, s) =>
      (p.deductions.foldl applyDeduction inv).map fun item =>
        if item.id = i then { item with stock := s + p.qty } else item
  | none => p.deductions.foldl applyDeduction inv ++ [newFinishedGood fid p.recipeName p.qty]

/-- Outcome of `handleConfirmProduction`: rejected input, a shortage
report (no write), or a committed new inventory. -/
inductive ProdResult
  | validationError
  | shortage (report : List Shortage)
  | committed (newInv : List InventoryItem)
deriving DecidableEq, Repr

/-- `handleConfirmProduction(recipe, quantityToProduce)` against the
`inventoryItems` snapshot `inv`; `fid` is the id Firestore assigns to a
newly created finished-good document. -/
def handleConfirmProduction (inv : List InventoryItem) (r : Recipe) (qty : ℚ)
    (fid : Nat) : ProdResult :=
  if qty ≤ 0 then .validationError
  else if planShortages inv r qty = [] then
    .committed (commitPlan (mkPlan inv r qty) inv fid)
  else .shortage (planShortages inv r qty)

/-! ## Order fulfillment (`handleChangeOrderStatus`, App.js lines 1258-1324) -/

/-- Lines 1268-1274: the product name to deduct is `productDescription`,
overridden by the linked recipe's name when `selectedRecipeId` is set and
resolves in the recipe list. -/
def productNameForDeduction (recipes : List Recipe) (selectedRecipeId : Option Nat)
    (productDescription : String) : String :=
  match selectedRecipeId with
  | none => productDescription
  | some rid =>
    match recipes.find? fun r => r.id == rid with
    | some r => r.name
    | none => productDescription

/-- One Firestore document update issued by `handleChangeOrderStatus`:
either an inventory stock write or a sales-order status write. -/
inductive OrderWrite
  | setStock (itemId : Nat) (newStock : ℚ)
  | setStatus (s : String)
deriving DecidableEq, Repr

/-- Outcome of `handleChangeOrderStatus`: product not found in inventory,
insufficient finished-good stock (both without any write), or the ordered
list of document updates the handler issues. -/
inductive OrderOutcome
  | notFound
  | insufficientStock
  | commit (writes : List OrderWrite)
deriving DecidableEq, Repr

/-- `handleChangeOrderStatus(orderId, currentStatus, selectedRecipeId,
productDescription, quantity)`: toggles the status; completing deducts
finished-good stock first and then sets the status (two separate awaited
`updateDoc` calls, lines 1297-1303); reopening only writes the status
(line 1317). -/
def handleChangeOrderStatus (recipes : List Recipe) (inv : List InventoryItem)
    (ord : SalesOrder) : OrderOutcome :=
  if ord.status = "Pendiente" then
    match findFinishedGood inv
        (productNameForDeduction recipes ord.selectedRecipeId ord.productDescription) with
    | none => .notFound
    | some fp =>
      if fp.stock < ord.quantity then .insufficientStock
      else .commit [.setStock fp.id (fp.stock - ord.quantity), .setStatus "Completado"]
  else .commit [.setStatus "Pendiente"]

/-- The pair of documents `handleChangeOrderStatus` writes to. -/
structure OrderState where
  inv : List InventoryItem
  order : SalesOrder
deriving DecidableEq, Repr

/-- Apply one document update. -/
def applyOrderWrite (st : OrderState) : OrderWrite → OrderState
  | .setStock i v =>
    { st with inv := st.inv.map fun item =>
        if item.id = i then { item with stock := v } else item }
  | .setStatus s => { st with order := { st.order with status := s } }

/-- Apply a write sequence in order. -/
def runWrites (st : OrderState) (ws : List OrderWrite) : OrderState :=
  ws.foldl applyOrderWrite st

/-- Apply only the first `k` writes of a sequence: the state left behind
when the store fails after `k` of the sequential `updateDoc` calls. -/
def runWritesPrefix (st : OrderState) (ws : List OrderWrite) (k : Nat) : OrderState :=
  runWrites st (ws.take k)

/-- Observation: the stock of the document with the given id. -/
def stockOf (inv : List InventoryItem) (i : Nat) : Option ℚ :=
  (inv.find? fun item => item.id == i).map fun item => item.stock

/-! ## Claim C5: the identity short-circuit -/

/-- **C5** (confirmed).  For every value `v` and every unit symbol `u` —
including symbols absent from every category table — `convertUnits v u u`
returns `v` unchanged: the identity short-circuit on (lowercased) symbol
equality never fails. -/
theorem convertUnits_identity (v : ℚ) (u : String) : convertUnits v u u = some v := by
  simp [convertUnits]

/-! ## Claim C10: case-insensitivity of the converter -/

/-- **C10** (confirmed).  `convertUnits` lowercases both symbols before
the identity comparison and the table lookups, so its value only depends
on the lowercased symbols; in particular `convertUnits v "KG" "g" =
some (1000 * v)` and `convertUnits v "G" "g" = some v`. -/
theorem convertUnits_case_insensitive :
    (∀ (v : ℚ) (x y u w : String), jsToLower x = jsToLower u → jsToLower y = jsToLower w →
      convertUnits v x y = convertUnits v u w) ∧
    (∀ v : ℚ, convertUnits v "KG" "g" = some (1000 * v)) ∧
    (∀ v : ℚ, convertUnits v "G" "g" = some v) := by
  refine ⟨?_, ?_, ?_⟩
  · intro v x y u w hx hy
    simp only [convertUnits]
    rw [hx, hy]
  · intro v
    rw [show convertUnits v "KG" "g" = some (v * 1000 / 1) from rfl]
    simp [div_one, mul_comm]
  · intro v
    rfl

/-- Instance of C10 at a concrete input: differently cased symbols
convert identically. -/
theorem convertUnits_case_insensitive_witness :
    convertUnits 4 "Kg" "G" = convertUnits 4 "kg" "g" :=
  convertUnits_case_insensitive.1 4 "Kg" "G" "kg" "g" (by decide) (by decide)

/-! ## Claim C4: the category table and conversion formula -/

/-- **C4** (corrected): the source's count table maps `"unidad"`, not the
claimed `"unit"`: the spec-worded table `specCountFactors` and the
source's `countFactors` disagree at both symbols. -/
theorem countFactors_symbol_counterexample :
    specCountFactors "unit" = some 1 ∧ countFactors "unit" = none ∧
    countFactors "unidad" = some 1 ∧ specCountFactors "unidad" = none := by
  exact ⟨by decide, by decide, by decide, by decide⟩

/-- **C4** (amended: the count category's sole symbol is `"unidad"`).
The table is the closed constant Mass{g:1, kg:1000}, Volume{ml:1,
lt:1000, cc:1}, Count{unidad:1}; for distinct lowercase symbols of one
category the converter returns `value * factor(from) / factor(to)`;
unknown symbols or differing categories fail; and the claim's three
examples hold. -/
theorem convertUnits_table_and_formula :
    (massFactors "g" = some 1 ∧ massFactors "kg" = some 1000) ∧
    (volumeFactors "ml" = some 1 ∧ volumeFactors "lt" = some 1000 ∧
      volumeFactors "cc" = some 1) ∧
    countFactors "unidad" = some 1 ∧
    (∀ u : String, u ∉ (["g", "kg", "ml", "lt", "cc", "unidad"] : List String) →
      categoryOf u = none) ∧
    (∀ (v : ℚ) (u w : String) (c : UnitCategory) (a b : ℚ),
      jsToLower u = u → jsToLower w = w → u ≠ w →
      categoryOf u = some c → categoryOf w = some c →
      factorIn c u = some a → factorIn c w = some b →
      convertUnits v u w = some (v * a / b)) ∧
    (∀ (v : ℚ) (u w : String),
      jsToLower u = u → jsToLower w = w → u ≠ w →
      (categoryOf u = none ∨ categoryOf w = none ∨ categoryOf u ≠ categoryOf w) →
      convertUnits v u w = none) ∧
    (convertUnits 100 "g" "kg" = some (1/10) ∧ convertUnits 1 "lt" "ml" = some 1000 ∧
      convertUnits 5 "g" "ml" = none) := by
  refine ⟨⟨by decide, by decide⟩, ⟨by decide, by decide, by decide⟩, by decide,
    ?_, ?_, ?_, by decide, by decide, by decide⟩
  · intro u hu
    simp only [List.mem_cons, List.not_mem_nil, or_false, not_or] at hu
    obtain ⟨h1, h2, h3, h4, h5, h6⟩ := hu
    simp [categoryOf, massFactors, volumeFactors, countFactors, h1, h2, h3, h4, h5, h6]
  · intro v u w c a b hu hw huw hcu hcw ha hb
    simp only [convertUnits]
    rw [hu, hw, if_neg huw, hcu, hcw]
    dsimp only
    rw [if_pos rfl, ha, hb]
  · intro v u w hu hw huw hc
    simp only [convertUnits]
    rw [hu, hw, if_neg huw]
    rcases hc with h | h | h
    · rw [h]
    · rw [h]
      cases categoryOf u <;> rfl
    · cases hcu : categoryOf u with
      | none => rfl
      | some cu =>
        cases hcw : categoryOf w with
        | none => rfl
        | some cw =>
          have hne : cu ≠ cw := by
            intro e
            rw [hcu, hcw, e] at h
            exact h rfl
          simp only [if_neg hne]

/-- Instance of C4's conversion formula at a concrete input. -/
theorem convertUnits_table_and_formula_witness :
    convertUnits 3 "g" "kg" = some (3 * 1 / 1000) :=
  convertUnits_table_and_formula.2.2.2.2.1 3 "g" "kg" .mass 1 1000 (by decide) (by decide)
    (by decide) (by decide) (by decide) (by decide) (by decide)

/-! ## Shared lemmas about the planner and the write phase -/

theorem findRawMaterial_mem {inv : List InventoryItem} {nm : String} {item : InventoryItem}
    (h : findRawMaterial inv nm = some item) : item ∈ inv :=
  List.mem_of_find?_eq_some h

theorem findRawMaterial_type {inv : List InventoryItem} {nm : String} {item : InventoryItem}
    (h : findRawMaterial inv nm = some item) : item.type = "raw_material" := by
  have hp := List.find?_some h
  simp only [Bool.and_eq_true, beq_iff_eq] at hp
  exact hp.2

theorem findFinishedGood_mem {inv : List InventoryItem} {nm : String} {fp : InventoryItem}
    (h : findFinishedGood inv nm = some fp) : fp ∈ inv :=
  List.mem_of_find?_eq_some h

theorem findFinishedGood_type {inv : List InventoryItem} {nm : String} {fp : InventoryItem}
    (h : findFinishedGood inv nm = some fp) : fp.type = "finished_good" := by
  have hp := List.find?_some h
  simp only [Bool.and_eq_true, beq_iff_eq] at hp
  exact hp.2

theorem foldl_applyDeduction_nonneg (ds : List Deduction) :
    ∀ inv : List InventoryItem,
      (∀ d ∈ ds, 0 ≤ d.newStock) → (∀ i ∈ inv, 0 ≤ i.stock) →
      ∀ i ∈ ds.foldl applyDeduction inv, 0 ≤ i.stock := by
  induction ds with
  | nil => intro inv _ hinv; simpa using hinv
  | cons d ds ih =>
    intro inv hds hinv
    rw [List.foldl_cons]
    apply ih
    · intro d' hd'
      exact hds d' (List.mem_cons_of_mem _ hd')
    · intro i hi
      unfold applyDeduction at hi
      rcases List.mem_map.mp hi with ⟨x, hx, rfl⟩
      split
      · exact hds d (List.mem_cons_self _ _)
      · exact hinv x hx

theorem planDeductions_nonneg {inv : List InventoryItem} {r : Recipe} {qty : ℚ}
    (huv : ∀ i ∈ inv, 0 < i.unit_value)
    (hns : planShortages inv r qty = []) :
    ∀ d ∈ planDeductions inv r qty, 0 ≤ d.newStock := by
  intro d hd
  rcases List.mem_filterMap.mp hd with ⟨ing, hing, hev⟩
  have hsh : (evalIngredient inv qty ing).1 = none :=
    List.filterMap_eq_nil_iff.mp hns ing hing
  have he : evalIngredient inv qty ing = (none, some d) := by
    rw [← hsh, ← hev]
  unfold evalIngredient at he
  split at he
  · simp at he
  · rename_i item hfind
    split at he
    · simp at he
    · rename_i req hconv
      simp only [Prod.mk.injEq, Option.some.injEq] at he
      obtain ⟨hite, hdd⟩ := he
      by_cases hlt : item.stock * item.unit_value < req
      · rw [if_pos hlt] at hite
        exact Option.noConfusion hite
      · subst hdd
        have h1 : 0 < item.unit_value := huv item (findRawMaterial_mem hfind)
        have h2 : req ≤ item.stock * item.unit_value := le_of_not_lt hlt
        exact div_nonneg (by linarith) (le_of_lt h1)

theorem commitPlan_stock_nonneg {inv : List InventoryItem} {r : Recipe} {qty : ℚ} {fid : Nat}
    (hstock : ∀ i ∈ inv, 0 ≤ i.stock) (huv : ∀ i ∈ inv, 0 < i.unit_value)
    (hq : 0 < qty) (hns : planShortages inv r qty = []) :
    ∀ i ∈ commitPlan (mkPlan inv r qty) inv fid, 0 ≤ i.stock := by
  intro i hi
  have hded : ∀ x ∈ (planDeductions inv r qty).foldl applyDeduction inv, 0 ≤ x.stock :=
    foldl_applyDeduction_nonneg _ inv (planDeductions_nonneg huv hns) hstock
  unfold commitPlan mkPlan at hi
  cases hfp : findFinishedGood inv r.name with
  | none =>
    rw [hfp] at hi
    simp only [Option.map_none', List.mem_append, List.mem_singleton] at hi
    rcases hi with h | h
    · exact hded i h
    · subst h
      exact le_of_lt hq
  | some fp =>
    rw [hfp] at hi
    simp only [Option.map_some', List.mem_map] at hi
    rcases hi with ⟨x, hx, rfl⟩
    split
    · show 0 ≤ fp.stock + qty
      have := hstock fp (findFinishedGood_mem hfp)
      linarith
    · exact hded x hx

theorem runWrites_stock_nonneg (ws : List OrderWrite) :
    ∀ st : OrderState,
      (∀ w ∈ ws, ∀ i v, w = OrderWrite.setStock i v → 0 ≤ v) →
      (∀ i ∈ st.inv, 0 ≤ i.stock) →
      ∀ i ∈ (runWrites st ws).inv, 0 ≤ i.stock := by
  induction ws with
  | nil => intro st _ hst; simpa [runWrites] using hst
  | cons w ws ih =>
    intro st hws hst
    rw [show runWrites st (w :: ws) = runWrites (applyOrderWrite st w) ws from rfl]
    apply ih
    · intro w' hw'
      exact hws w' (List.mem_cons_of_mem _ hw')
    · cases w with
      | setStock i v =>
        intro j hj
        simp only [applyOrderWrite] at hj
        rcases List.mem_map.mp hj with ⟨x, hx, rfl⟩
        have hv : 0 ≤ v := hws _ (List.mem_cons_self _ _) i v rfl
        split
        · exact hv
        · exact hst x hx
      | setStatus s =>
        intro j hj
        exact hst j hj

/-! ## Claim C1: no commit leaves a negative stock -/

/-- **C1** (confirmed).  For every inventory state whose stocks are
non-negative and whose unit values are positive, and every successful
commit — a production confirmation or a sales-order status change — every
resulting `stock` is non-negative (for the order handler, after any
prefix of its write sequence). -/
theorem commit_stock_nonneg
    (inv : List InventoryItem) (recipes : List Recipe) (r : Recipe) (ord : SalesOrder)
    (qty : ℚ) (fid : Nat)
    (hstock : ∀ i ∈ inv, 0 ≤ i.stock) (huv : ∀ i ∈ inv, 0 < i.unit_value) :
    (∀ inv', handleConfirmProduction inv r qty fid = .committed inv' →
      ∀ i ∈ inv', 0 ≤ i.stock) ∧
    (∀ ws k, handleChangeOrderStatus recipes inv ord = .commit ws →
      ∀ i ∈ (runWritesPrefix ⟨inv, ord⟩ ws k).inv, 0 ≤ i.stock) := by
  constructor
  · intro inv' h
    unfold handleConfirmProduction at h
    by_cases hq : qty ≤ 0
    · rw [if_pos hq] at h
      exact ProdResult.noConfusion h
    · rw [if_neg hq] at h
      by_cases hns : planShortages inv r qty = []
      · rw [if_pos hns] at h
        injection h with h'
        subst h'
        exact commitPlan_stock_nonneg hstock huv (lt_of_not_le hq) hns
      · rw [if_neg hns] at h
        exact ProdResult.noConfusion h
  · intro ws k h
    unfold handleChangeOrderStatus at h
    by_cases hp : ord.status = "Pendiente"
    · rw [if_pos hp] at h
      cases hfp : findFinishedGood inv
          (productNameForDeduction recipes ord.selectedRecipeId ord.productDescription) with
      | none =>
        rw [hfp] at h
        exact OrderOutcome.noConfusion h
      | some fp =>
        rw [hfp] at h
        dsimp only at h
        by_cases hlt : fp.stock < ord.quantity
        · rw [if_pos hlt] at h
          exact OrderOutcome.noConfusion h
        · rw [if_neg hlt] at h
          injection h with hws
          subst hws
          apply runWrites_stock_nonneg
          · intro w hw i v hveq
            subst hveq
            have hw2 := List.take_subset _ _ hw
            simp only [List.mem_cons, List.not_mem_nil, or_false] at hw2
            rcases hw2 with h2 | h2
            · injection h2 with hid hv
              rw [hv]
              have := le_of_not_lt hlt
              linarith
            · exact OrderWrite.noConfusion h2
          · exact hstock
    · rw [if_neg hp] at h
      injection h with hws
      subst hws
      apply runWrites_stock_nonneg
      · intro w hw i v hveq
        subst hveq
        have hw2 := List.take_subset _ _ hw
        simp only [List.mem_cons, List.not_mem_nil, or_false] at hw2
        exact OrderWrite.noConfusion hw2
      · exact hstock

/-- C1 at a concrete input: a committed production against positive
stock leaves the deducted item's (non-negative) stock. -/
theorem commit_stock_nonneg_witness :
    (0 : ℚ) ≤ (InventoryItem.mk 1 "Azucar" "raw_material" 1 "g" 3).stock :=
  (commit_stock_nonneg [⟨1, "Azucar", "raw_material", 1, "g", 5⟩] []
      ⟨0, "Torta", [⟨"Azucar", 1, "g"⟩]⟩ ⟨2, "Ana", none, "Torta", 1, "d", "Completado"⟩ 2 99
      (by decide) (by decide)).1
    [⟨1, "Azucar", "raw_material", 1, "g", 3⟩, newFinishedGood 99 "Torta" 2] (by decide)
    ⟨1, "Azucar", "raw_material", 1, "g", 3⟩ (by decide)

/-! ## Claim C3: one-pass planning, complete shortage report, deduction formula -/

/-- **C3** (confirmed).  For positive `qty`, every ingredient is
classified independently of the others (no short-circuit): an unresolved
name contributes a missing-ingredient shortage, a conversion failure a
unit-mismatch shortage, a deficit its shortage entry.  Any shortage makes
the handler return the full report and no mutation; otherwise it commits
the plan, whose entry for each ingredient carries `newStock =
(available − required) / unit_value`. -/
theorem production_plan_complete (inv : List InventoryItem) (r : Recipe) (qty : ℚ)
    (fid : Nat) (hq : 0 < qty) :
    (∀ ing ∈ r.ingredients, findRawMaterial inv ing.name = none →
      Shortage.missingIngredient ing.name ∈ planShortages inv r qty) ∧
    (∀ ing ∈ r.ingredients, ∀ item, findRawMaterial inv ing.name = some item →
      convertUnits (ing.quantity * qty) ing.unit item.unit_type = none →
      Shortage.unitMismatch ing.name ∈ planShortages inv r qty) ∧
    (∀ ing ∈ r.ingredients, ∀ item req, findRawMaterial inv ing.name = some item →
      convertUnits (ing.quantity * qty) ing.unit item.unit_type = some req →
      item.stock * item.unit_value < req →
      Shortage.deficit ing.name req (item.stock * item.unit_value) item.unit_type ∈
        planShortages inv r qty) ∧
    (planShortages inv r qty ≠ [] →
      handleConfirmProduction inv r qty fid = .shortage (planShortages inv r qty)) ∧
    (planShortages inv r qty = [] →
      handleConfirmProduction inv r qty fid = .committed (commitPlan (mkPlan inv r qty) inv fid) ∧
      ∀ ing ∈ r.ingredients, ∃ item req,
        findRawMaterial inv ing.name = some item ∧
        convertUnits (ing.quantity * qty) ing.unit item.unit_type = some req ∧
        req ≤ item.stock * item.unit_value ∧
        (⟨item.id, (item.stock * item.unit_value - req) / item.unit_value⟩ : Deduction) ∈
          planDeductions inv r qty) := by
  refine ⟨?_, ?_, ?_, ?_, ?_⟩
  · intro ing hing hnone
    refine List.mem_filterMap.mpr ⟨ing, hing, ?_⟩
    unfold evalIngredient
    rw [hnone]
  · intro ing hing item hsome hconv
    refine List.mem_filterMap.mpr ⟨ing, hing, ?_⟩
    unfold evalIngredient
    rw [hsome]
    dsimp only
    rw [hconv]
  · intro ing hing item req hsome hconv hlt
    refine List.mem_filterMap.mpr ⟨ing, hing, ?_⟩
    unfold evalIngredient
    rw [hsome]
    dsimp only
    rw [hconv]
    dsimp only
    rw [if_pos hlt]
  · intro hne
    unfold handleConfirmProduction
    rw [if_neg (not_le.mpr hq), if_neg hne]
  · intro hns
    refine ⟨?_, ?_⟩
    · unfold handleConfirmProduction
      rw [if_neg (not_le.mpr hq), if_pos hns]
    · intro ing hing
      have hsh : (evalIngredient inv qty ing).1 = none :=
        List.filterMap_eq_nil_iff.mp hns ing hing
      have he : evalIngredient inv qty ing =
          ((evalIngredient inv qty ing).1, (evalIngredient inv qty ing).2) := rfl
      rw [hsh] at he
      unfold evalIngredient at he
      split at he
      · simp at he
      · rename_i item hfind
        split at he
        · simp at he
        · rename_i req hconv
          simp only [Prod.mk.injEq] at he
          obtain ⟨hite, hdd⟩ := he
          by_cases hlt : item.stock * item.unit_value < req
          · rw [if_pos hlt] at hite
            exact Option.noConfusion hite
          · refine ⟨item, req, hfind, hconv, le_of_not_lt hlt, ?_⟩
            refine List.mem_filterMap.mpr ⟨ing, hing, ?_⟩
            unfold evalIngredient
            rw [hfind]
            dsimp only
            rw [hconv]

/-- Instance of C3 at the specification's flour example: producing 2
units needing 100 g each against 150 g on hand reports a 200-versus-150
deficit. -/
theorem production_plan_complete_witness :
    Shortage.deficit "flour" 200 150 "g" ∈
      planShortages [⟨4, "flour", "raw_material", 150, "g", 1⟩]
        ⟨9, "Pan", [⟨"flour", 100, "g"⟩]⟩ 2 :=
  (production_plan_complete [⟨4, "flour", "raw_material", 150, "g", 1⟩]
      ⟨9, "Pan", [⟨"flour", 100, "g"⟩]⟩ 2 7 (by decide)).2.2.1
    ⟨"flour", 100, "g"⟩ (by decide) ⟨4, "flour", "raw_material", 150, "g", 1⟩ 200
    (by decide) (by decide) (by decide)

/-! ## Claim C9: input validation -/

/-- **C9** (counterexample).  A recipe with an empty ingredient list and
quantity 1 is not rejected: the handler commits, creating the finished
good out of nothing, instead of returning a validation error and leaving
the inventory unchanged. -/
theorem empty_recipe_commits_counterexample :
    handleConfirmProduction [] ⟨0, "Torta", []⟩ 1 5 =
      .committed [newFinishedGood 5 "Torta" 1] ∧
    ProdResult.committed [newFinishedGood 5 "Torta" 1] ≠ .validationError ∧
    ([newFinishedGood 5 "Torta" 1] : List InventoryItem) ≠ [] := by
  exact ⟨by decide, by decide, by decide⟩

/-- **C9** (amended: only the non-positive quantity is rejected).  A call
with `quantityToProduce ≤ 0` yields a validation error and proposes no
mutation; an empty ingredient list is not rejected — with a positive
quantity the plan has no shortages and no deductions, and the handler
commits the finished-good upsert. -/
theorem production_validation (inv : List InventoryItem) (r : Recipe) (qty : ℚ) (fid : Nat) :
    (qty ≤ 0 → handleConfirmProduction inv r qty fid = .validationError) ∧
    (0 < qty → r.ingredients = [] →
      planShortages inv r qty = [] ∧ planDeductions inv r qty = [] ∧
      handleConfirmProduction inv r qty fid =
        .committed (commitPlan (mkPlan inv r qty) inv fid)) := by
  constructor
  · intro hq
    unfold handleConfirmProduction
    rw [if_pos hq]
  · intro hq hempty
    have hns : planShortages inv r qty = [] := by
      unfold planShortages
      rw [hempty]
      rfl
    have hnd : planDeductions inv r qty = [] := by
      unfold planDeductions
      rw [hempty]
      rfl
    refine ⟨hns, hnd, ?_⟩
    unfold handleConfirmProduction
    rw [if_neg (not_le.mpr hq), if_pos hns]

/-- Instance of C9's validation at a concrete input: quantity 0 is
rejected. -/
theorem production_validation_witness :
    handleConfirmProduction [] ⟨0, "Torta", [⟨"Azucar", 1, "g"⟩]⟩ 0 3 = .validationError :=
  (production_validation [] ⟨0, "Torta", [⟨"Azucar", 1, "g"⟩]⟩ 0 3).1 (by decide)

/-! ## Claim C2: the commit has no version check -/

/-- **C2** (counterexample).  One batch's worth of "Azucar" (stock 1),
two identical shortage-free plans from that snapshot: after the first
commit, the second commit — planned against the now-stale snapshot —
still applies all of its writes (the state changes again and a second
finished-good document appears).  No commit fails with a conflict and
the losing commit does not "apply no write at all". -/
theorem concurrent_commit_counterexample :
    planShortages [⟨1, "Azucar", "raw_material", 1, "g", 1⟩]
      ⟨7, "Torta", [⟨"Azucar", 1, "g"⟩]⟩ 1 = [] ∧
    commitPlan (mkPlan [⟨1, "Azucar", "raw_material", 1, "g", 1⟩]
        ⟨7, "Torta", [⟨"Azucar", 1, "g"⟩]⟩ 1)
      [⟨1, "Azucar", "raw_material", 1, "g", 1⟩] 101 =
      [⟨1, "Azucar", "raw_material", 1, "g", 0⟩, newFinishedGood 101 "Torta" 1] ∧
    commitPlan (mkPlan [⟨1, "Azucar", "raw_material", 1, "g", 1⟩]
        ⟨7, "Torta", [⟨"Azucar", 1, "g"⟩]⟩ 1)
      [⟨1, "Azucar", "raw_material", 1, "g", 0⟩, newFinishedGood 101 "Torta" 1] 102 =
      [⟨1, "Azucar", "raw_material", 1, "g", 0⟩, newFinishedGood 101 "Torta" 1,
        newFinishedGood 102 "Torta" 1] ∧
    ([⟨1, "Azucar", "raw_material", 1, "g", 0⟩, newFinishedGood 101 "Torta" 1,
        newFinishedGood 102 "Torta" 1] : List InventoryItem) ≠
      [⟨1, "Azucar", "raw_material", 1, "g", 0⟩, newFinishedGood 101 "Torta" 1] := by
  exact ⟨by decide, by decide, by decide, by decide⟩

/-- **C2** (amended: the commit is unconditional).  The write phase
carries no version token and has no conflict outcome; every deduction
write stores the absolute stock computed at plan time.  In the contested
scenario both commits take effect: the contested item ends at the planned
value 0 (a lost update — two productions consumed one batch) and two
finished-good documents of stock 1 each exist afterwards. -/
theorem commit_unconditional :
    planShortages [⟨1, "Azucar", "raw_material", 1, "g", 1⟩]
      ⟨7, "Torta", [⟨"Azucar", 1, "g"⟩]⟩ 1 = [] ∧
    stockOf (commitPlan (mkPlan [⟨1, "Azucar", "raw_material", 1, "g", 1⟩]
        ⟨7, "Torta", [⟨"Azucar", 1, "g"⟩]⟩ 1)
      (commitPlan (mkPlan [⟨1, "Azucar", "raw_material", 1, "g", 1⟩]
          ⟨7, "Torta", [⟨"Azucar", 1, "g"⟩]⟩ 1)
        [⟨1, "Azucar", "raw_material", 1, "g", 1⟩] 101) 102) 1 = some 0 ∧
    ((commitPlan (mkPlan [⟨1, "Azucar", "raw_material", 1, "g", 1⟩]
        ⟨7, "Torta", [⟨"Azucar", 1, "g"⟩]⟩ 1)
      (commitPlan (mkPlan [⟨1, "Azucar", "raw_material", 1, "g", 1⟩]
          ⟨7, "Torta", [⟨"Azucar", 1, "g"⟩]⟩ 1)
        [⟨1, "Azucar", "raw_material", 1, "g", 1⟩] 101) 102).filter
      fun i => i.type == "finished_good").length = 2 := by
  exact ⟨by decide, by decide, by decide⟩

/-! ## Claim C8: reopening is status-only -/

/-- **C8** (confirmed).  Reopening a completed order issues exactly one
write, setting the status to `"Pendiente"`: the inventory list is
untouched and every other order field keeps its value. -/
theorem reopen_status_only (recipes : List Recipe) (inv : List InventoryItem)
    (ord : SalesOrder) (hc : ord.status = "Completado") :
    handleChangeOrderStatus recipes inv ord = .commit [.setStatus "Pendiente"] ∧
    (runWrites ⟨inv, ord⟩ [.setStatus "Pendiente"]).inv = inv ∧
    (runWrites ⟨inv, ord⟩ [.setStatus "Pendiente"]).order.status = "Pendiente" ∧
    (runWrites ⟨inv, ord⟩ [.setStatus "Pendiente"]).order.id = ord.id ∧
    (runWrites ⟨inv, ord⟩ [.setStatus "Pendiente"]).order.customerName = ord.customerName ∧
    (runWrites ⟨inv, ord⟩ [.setStatus "Pendiente"]).order.selectedRecipeId =
      ord.selectedRecipeId ∧
    (runWrites ⟨inv, ord⟩ [.setStatus "Pendiente"]).order.productDescription =
      ord.productDescription ∧
    (runWrites ⟨inv, ord⟩ [.setStatus "Pendiente"]).order.quantity = ord.quantity ∧
    (runWrites ⟨inv, ord⟩ [.setStatus "Pendiente"]).order.orderDate = ord.orderDate := by
  have hne : ¬ ord.status = "Pendiente" := by
    rw [hc]
    decide
  refine ⟨?_, rfl, rfl, rfl, rfl, rfl, rfl, rfl, rfl⟩
  unfold handleChangeOrderStatus
  rw [if_neg hne]

/-- Instance of C8 at a concrete input. -/
theorem reopen_status_only_witness :
    handleChangeOrderStatus [] [] ⟨3, "Ana", none, "Torta", 5, "d", "Completado"⟩ =
      .commit [.setStatus "Pendiente"] :=
  (reopen_status_only [] [] ⟨3, "Ana", none, "Torta", 5, "d", "Completado"⟩ rfl).1

/-! ## Lemmas on document lookup by id -/

theorem find?_id_map_update (inv : List InventoryItem) (tid : Nat) (v : ℚ) (i : Nat) :
    ((inv.map fun item => if item.id = tid then { item with stock := v } else item).find?
      fun item => item.id == i) =
    (inv.find? fun item => item.id == i).map fun item =>
      if item.id = tid then { item with stock := v } else item := by
  rw [List.find?_map]
  have hpe : ((fun item => item.id == i) ∘ fun item =>
      if item.id = tid then { item with stock := v } else item) =
      fun item : InventoryItem => item.id == i := by
    funext it
    by_cases h : it.id = tid <;> simp [Function.comp, h]
  rw [hpe]

theorem find?_id_of_nodup {inv : List InventoryItem}
    (hn : (inv.map fun i => i.id).Nodup) {fp : InventoryItem} (hfp : fp ∈ inv) :
    (inv.find? fun item => item.id == fp.id) = some fp := by
  induction inv with
  | nil => cases hfp
  | cons a l ih =>
    rw [List.map_cons, List.nodup_cons] at hn
    rcases List.mem_cons.mp hfp with rfl | hmem
    · exact List.find?_cons_of_pos _ (by simp)
    · have hne : a.id ≠ fp.id := by
        intro e
        exact hn.1 (e ▸ List.mem_map.mpr ⟨fp, hmem, rfl⟩)
      rw [List.find?_cons_of_neg _ (by simp [hne])]
      exact ih hn.2 hmem

theorem stockOf_map_update {xs : List InventoryItem} {tid : Nat} {it : InventoryItem}
    (hit : xs.find? (fun item => item.id == tid) = some it) (v : ℚ) :
    stockOf (xs.map fun item => if item.id = tid then { item with stock := v } else item)
      tid = some v := by
  unfold stockOf
  rw [find?_id_map_update, hit]
  have hid : it.id = tid := by
    have := List.find?_some hit
    simpa [beq_iff_eq] using this
  simp [Option.map_some', hid]

theorem find?_applyDeduction_ne (inv : List InventoryItem) (d : Deduction) (i : Nat)
    (hne : d.itemId ≠ i) :
    ((applyDeduction inv d).find? fun item => item.id == i) =
      inv.find? fun item => item.id == i := by
  unfold applyDeduction
  rw [find?_id_map_update]
  cases h : inv.find? (fun item => item.id == i) with
  | none => rfl
  | some it =>
    have hid : it.id = i := by
      have := List.find?_some h
      simpa [beq_iff_eq] using this
    rw [Option.map_some', hid, if_neg fun e => hne e.symm]

theorem find?_foldl_deductions_ne (ds : List Deduction) :
    ∀ (inv : List InventoryItem) (i : Nat), (∀ d ∈ ds, d.itemId ≠ i) →
      ((ds.foldl applyDeduction inv).find? fun item => item.id == i) =
        inv.find? fun item => item.id == i := by
  induction ds with
  | nil => intro inv i _; rfl
  | cons d ds ih =>
    intro inv i hds
    rw [List.foldl_cons, ih _ i fun d' hd' => hds d' (List.mem_cons_of_mem _ hd'),
      find?_applyDeduction_ne _ _ _ (hds d (List.mem_cons_self _ _))]

theorem planDeductions_source {inv : List InventoryItem} {r : Recipe} {qty : ℚ}
    {d : Deduction} (hd : d ∈ planDeductions inv r qty) :
    ∃ item ∈ inv, item.type = "raw_material" ∧ d.itemId = item.id := by
  rcases List.mem_filterMap.mp hd with ⟨ing, hing, hev⟩
  unfold evalIngredient at hev
  split at hev
  · simp at hev
  · rename_i item hfind
    split at hev
    · simp at hev
    · rename_i req hconv
      simp only [Option.some.injEq] at hev
      refine ⟨item, findRawMaterial_mem hfind, findRawMaterial_type hfind, ?_⟩
      rw [← hev]

/-! ## Claim C7: completing a sales order -/

/-- **C7** (counterexample).  Completing an order issues two separate
sequential document writes (stock first, then status); the state after
only the first write — where the second update fails — has the stock
deducted while the order still reads `"Pendiente"`: one write happened
without the other, so the pair is not atomic. -/
theorem order_completion_not_atomic_counterexample :
    handleChangeOrderStatus [] [⟨1, "Torta", "finished_good", 1, "unidad", 10⟩]
        ⟨3, "Ana", none, "Torta", 5, "2026-01-01", "Pendiente"⟩ =
      .commit [.setStock 1 5, .setStatus "Completado"] ∧
    runWritesPrefix ⟨[⟨1, "Torta", "finished_good", 1, "unidad", 10⟩],
        ⟨3, "Ana", none, "Torta", 5, "2026-01-01", "Pendiente"⟩⟩
        [.setStock 1 5, .setStatus "Completado"] 1 =
      ⟨[⟨1, "Torta", "finished_good", 1, "unidad", 5⟩],
        ⟨3, "Ana", none, "Torta", 5, "2026-01-01", "Pendiente"⟩⟩ ∧
    ([⟨1, "Torta", "finished_good", 1, "unidad", 5⟩] : List InventoryItem) ≠
      [⟨1, "Torta", "finished_good", 1, "unidad", 10⟩] ∧
    "Pendiente" ≠ "Completado" := by
  exact ⟨by decide, by decide, by decide, by decide⟩

/-- **C7** (amended: the two writes are sequential, not atomic).  The
product name resolves to the linked recipe's name when the link is set
and found, else to the description; a missing finished good yields
not-found and a stock below the order quantity yields a shortage, both
with no write; otherwise the handler issues the stock write (deducting
`order.quantity`) followed by the status write (`"Completado"`), and
running both yields the deducted stock and the completed order. -/
theorem order_completion (recipes : List Recipe) (inv : List InventoryItem)
    (ord : SalesOrder) (hp : ord.status = "Pendiente") :
    (ord.selectedRecipeId = none →
      productNameForDeduction recipes ord.selectedRecipeId ord.productDescription =
        ord.productDescription) ∧
    (∀ rid rcp, ord.selectedRecipeId = some rid →
      (recipes.find? fun r => r.id == rid) = some rcp →
      productNameForDeduction recipes ord.selectedRecipeId ord.productDescription =
        rcp.name) ∧
    (findFinishedGood inv
        (productNameForDeduction recipes ord.selectedRecipeId ord.productDescription) = none →
      handleChangeOrderStatus recipes inv ord = .notFound) ∧
    (∀ fp, findFinishedGood inv
        (productNameForDeduction recipes ord.selectedRecipeId ord.productDescription) =
          some fp →
      fp.stock < ord.quantity →
      handleChangeOrderStatus recipes inv ord = .insufficientStock) ∧
    (∀ fp, findFinishedGood inv
        (productNameForDeduction recipes ord.selectedRecipeId ord.productDescription) =
          some fp →
      ¬ fp.stock < ord.quantity →
      handleChangeOrderStatus recipes inv ord =
        .commit [.setStock fp.id (fp.stock - ord.quantity), .setStatus "Completado"] ∧
      (runWrites ⟨inv, ord⟩
          [.setStock fp.id (fp.stock - ord.quantity), .setStatus "Completado"]).order =
        { ord with status := "Completado" } ∧
      ((inv.map fun i => i.id).Nodup →
        stockOf (runWrites ⟨inv, ord⟩
            [.setStock fp.id (fp.stock - ord.quantity), .setStatus "Completado"]).inv
          fp.id = some (fp.stock - ord.quantity))) := by
  refine ⟨?_, ?_, ?_, ?_, ?_⟩
  · intro h
    unfold productNameForDeduction
    rw [h]
  · intro rid rcp hsel hfind
    unfold productNameForDeduction
    rw [hsel]
    dsimp only
    rw [hfind]
  · intro hfpn
    unfold handleChangeOrderStatus
    rw [if_pos hp, hfpn]
  · intro fp hfp hlt
    unfold handleChangeOrderStatus
    rw [if_pos hp, hfp]
    dsimp only
    rw [if_pos hlt]
  · intro fp hfp hnlt
    refine ⟨?_, rfl, ?_⟩
    · unfold handleChangeOrderStatus
      rw [if_pos hp, hfp]
      dsimp only
      rw [if_neg hnlt]
    · intro hn
      exact stockOf_map_update (find?_id_of_nodup hn (findFinishedGood_mem hfp)) _

/-- Instance of C7 at the specification's example: quantity 5 against
stock 10 commits the two writes, leaving stock 5 and a completed
order. -/
theorem order_completion_witness :
    handleChangeOrderStatus [] [⟨1, "Torta", "finished_good", 1, "unidad", 10⟩]
        ⟨3, "Ana", none, "Torta", 5, "2026-01-01", "Pendiente"⟩ =
      .commit [.setStock 1 5, .setStatus "Completado"] :=
  ((order_completion [] [⟨1, "Torta", "finished_good", 1, "unidad", 10⟩]
      ⟨3, "Ana", none, "Torta", 5, "2026-01-01", "Pendiente"⟩ rfl).2.2.2.2
    ⟨1, "Torta", "finished_good", 1, "unidad", 10⟩ (by decide) (by decide)).1

/-! ## Claim C6: the finished-good upsert -/

/-- **C6** (counterexample).  A successful production commit with no
matching finished good creates the new document with `unit_type =
"unidad"`, not the claimed `"unit"`. -/
theorem finished_good_unit_type_counterexample :
    handleConfirmProduction [⟨1, "Azucar", "raw_material", 1, "g", 5⟩]
        ⟨0, "Torta", [⟨"Azucar", 1, "g"⟩]⟩ 2 99 =
      .committed [⟨1, "Azucar", "raw_material", 1, "g", 3⟩,
        ⟨99, "Torta", "finished_good", 1, "unidad", 2⟩] ∧
    (newFinishedGood 99 "Torta" 2).unit_type = "unidad" ∧
    (newFinishedGood 99 "Torta" 2).unit_type ≠ "unit" := by
  exact ⟨by decide, by decide, by decide⟩

/-- **C6** (amended: the created document's unit type is `"unidad"`).
A successful commit matches an existing finished good by
(case-insensitive) name: if none exists, a new document with
`unit_value = 1`, `unit_type = "unidad"` and `stock = quantityToProduce`
is appended; if one exists, its stock becomes its snapshot stock plus
`quantityToProduce`. -/
theorem finished_good_upsert (inv : List InventoryItem) (r : Recipe) (qty : ℚ) (fid : Nat)
    (hq : 0 < qty) (hns : planShortages inv r qty = [])
    (hn : (inv.map fun i => i.id).Nodup) :
    (findFinishedGood inv r.name = none →
      handleConfirmProduction inv r qty fid =
        .committed ((planDeductions inv r qty).foldl applyDeduction inv ++
          [newFinishedGood fid r.name qty]) ∧
      (newFinishedGood fid r.name qty).unit_value = 1 ∧
      (newFinishedGood fid r.name qty).unit_type = "unidad" ∧
      (newFinishedGood fid r.name qty).stock = qty ∧
      (newFinishedGood fid r.name qty).type = "finished_good") ∧
    (∀ fp, findFinishedGood inv r.name = some fp →
      ∃ inv', handleConfirmProduction inv r qty fid = .committed inv' ∧
        stockOf inv fp.id = some fp.stock ∧
        stockOf inv' fp.id = some (fp.stock + qty)) := by
  constructor
  · intro hfpn
    refine ⟨?_, rfl, rfl, rfl, rfl⟩
    unfold handleConfirmProduction
    rw [if_neg (not_le.mpr hq), if_pos hns]
    unfold commitPlan mkPlan
    rw [hfpn]
    rfl
  · intro fp hfp
    refine ⟨commitPlan (mkPlan inv r qty) inv fid, ?_, ?_, ?_⟩
    · unfold handleConfirmProduction
      rw [if_neg (not_le.mpr hq), if_pos hns]
    · unfold stockOf
      rw [find?_id_of_nodup hn (findFinishedGood_mem hfp)]
      rfl
    · have hne : ∀ d ∈ planDeductions inv r qty, d.itemId ≠ fp.id := by
        intro d hd e
        obtain ⟨item, hmem, hty, hid⟩ := planDeductions_source hd
        have hif : item = fp :=
          List.inj_on_of_nodup_map hn hmem (findFinishedGood_mem hfp) (by rw [← hid, e])
        rw [hif, findFinishedGood_type hfp] at hty
        exact absurd hty (by decide)
      have hfound : ((planDeductions inv r qty).foldl applyDeduction inv).find?
          (fun item => item.id == fp.id) = some fp := by
        rw [find?_foldl_deductions_ne _ _ _ hne]
        exact find?_id_of_nodup hn (findFinishedGood_mem hfp)
      unfold commitPlan mkPlan
      rw [hfp, Option.map_some']
      dsimp only
      exact stockOf_map_update hfound _

/-- Instance of C6's creation branch at a concrete input. -/
theorem finished_good_upsert_witness :
    handleConfirmProduction [⟨1, "Azucar", "raw_material", 1, "g", 5⟩]
        ⟨0, "Torta", [⟨"Azucar", 1, "g"⟩]⟩ 2 99 =
      .committed ((planDeductions [⟨1, "Azucar", "raw_material", 1, "g", 5⟩]
          ⟨0, "Torta", [⟨"Azucar", 1, "g"⟩]⟩ 2).foldl applyDeduction
          [⟨1, "Azucar", "raw_material", 1, "g", 5⟩] ++ [newFinishedGood 99 "Torta" 2]) :=
  ((finished_good_upsert [⟨1, "Azucar", "raw_material", 1, "g", 5⟩]
      ⟨0, "Torta", [⟨"Azucar", 1, "g"⟩]⟩ 2 99 (by decide) (by decide) (by decide)).1
    (by decide)).1

end MRP
